import Mathlib

/-!
# Cursor login tool (`tools/cursor/login.go`)

A shallow embedding of the login flow: PKCE pair generation, session
identifier generation, deep-link construction, the poll request, token
formatting and config patching, followed by the properties proved of them.

Go strings and byte slices are sequences of bytes; a byte is a natural
number below 256.  The functions of the Go standard library the program
calls (`strings`, `encoding/base64`, `crypto/sha256`, `fmt`) are modelled
after their Go implementations; the outside world (random source, browser,
network, file system) is an explicit argument.
-/

namespace Cursor

set_option maxRecDepth 100000

/-- Go `string` and `[]byte`: a sequence of bytes. -/
abbrev Str := List Nat

/-- Bytes of a string literal of the source (all of them are ASCII, where
code point and byte coincide). -/
def str (s : String) : Str := s.toList.map Char.toNat

/-! ## `strings` -/

/-- Go `strings.Index(s, substr)`: the index of the first instance of
`substr` in `s`, `none` for Go's `-1`. -/
def Index : Str → Str → Option Nat
  | [], substr => if substr.isEmpty then some 0 else none
  | c :: s, substr =>
    if substr.isPrefixOf (c :: s) then some 0
    else (Index s substr).map (· + 1)

/-- Go `strings.Contains(s, substr)`, which is `Index(s, substr) >= 0`. -/
def Contains (s substr : Str) : Bool := (Index s substr).isSome

/-- Loop of `strings.Count` for a non-empty `substr`: find the next
instance, count it, continue behind it.  The first argument bounds the
number of iterations; `Count` passes `len(s)`, which the loop never
exceeds because every iteration consumes at least one byte. -/
def countLoop (substr : Str) : Nat → Str → Nat
  | 0, _ => 0
  | k + 1, s =>
    match Index s substr with
    | none => 0
    | some i => 1 + countLoop substr k (s.drop (i + substr.length))

/-- Go `strings.Count(s, substr)` for a non-empty `substr`: the number of
non-overlapping instances of `substr` in `s`. -/
def Count (s substr : Str) : Nat := countLoop substr s.length s

/-- Loop of `genSplit`: `n` is the number of separators still to be cut
at (`for i < n`), the loop breaks when `Index` finds none. -/
def splitLoop (sep : Str) : Nat → Str → List Str
  | 0, s => [s]
  | n + 1, s =>
    match Index s sep with
    | none => [s]
    | some m => s.take m :: splitLoop sep n (s.drop (m + sep.length))

/-- Go `strings.Split(s, sep)` for a non-empty `sep`, which is
`genSplit(s, sep, 0, -1)`: `n = Count(s, sep) + 1`, capped at
`len(s) + 1`, and the loop cuts at `n - 1` separators. -/
def Split (s sep : Str) : List Str :=
  splitLoop sep (min (Count s sep + 1) (s.length + 1) - 1) s

/-- Replacement loop of `strings.Replace`: `n` replacements, each at the
next instance of `old` (`Count` guarantees there is one). -/
def replaceLoop (old new : Str) : Nat → Str → Str
  | 0, s => s
  | n + 1, s =>
    match Index s old with
    | none => s
    | some j => s.take j ++ new ++ replaceLoop old new n (s.drop (j + old.length))

/-- Go `strings.Replace(s, old, new, n)` for a non-empty `old`: the first
`n` non-overlapping instances of `old` replaced by `new`, all of them when
`n < 0`. -/
def Replace (s old new : Str) (n : Int) : Str :=
  if old = new ∨ n = 0 then s
  else
    let m := Count s old
    if m = 0 then s
    else replaceLoop old new (if n < 0 ∨ (m : Int) < n then m else n.toNat) s

/-! ## Token formatting -/

/-- Response structure for the auth poll API. -/
structure AuthResponse where
  AccessToken : Str
  AuthId : Str
deriving DecidableEq, Repr

/-- Go `formatToken`.  `none` stands for the run-time panic of an index
out of range in `strings.Split(authId, "|")[1]`. -/
def formatToken (authResp : AuthResponse) : Option Str :=
  let accessToken := authResp.AccessToken
  let authId := authResp.AuthId
  if accessToken = [] then some []
  else if Contains authId (str "|") then
    match (Split authId (str "|"))[1]? with
    | none => none
    | some userId => some (userId ++ str "%3A%3A" ++ accessToken)
  else some accessToken

/-! ## `encoding/base64`, `crypto/sha256`, `fmt` -/

/-- Alphabet of Go `base64.URLEncoding`. -/
def encodeURL : Str :=
  str "ABCDEFGHIJKLMNOPQRSTUVWXYZabcdefghijklmnopqrstuvwxyz0123456789-_"

/-- Go `enc.encode[v & 0x3F]` for the URL alphabet. -/
def b64 (v : Nat) : Nat := encodeURL.getD (v &&& 0x3F) 0

/-- Go `base64.RawURLEncoding.EncodeToString`: three bytes become four
characters, a remainder of one byte two characters, of two bytes three
characters, and no padding is written. -/
def base64RawURLEncode : Str → Str
  | [] => []
  | [s0] =>
    let val := s0 <<< 16
    [b64 (val >>> 18), b64 (val >>> 12)]
  | [s0, s1] =>
    let val := s0 <<< 16 ||| s1 <<< 8
    [b64 (val >>> 18), b64 (val >>> 12), b64 (val >>> 6)]
  | s0 :: s1 :: s2 :: rest =>
    let val := s0 <<< 16 ||| s1 <<< 8 ||| s2
    b64 (val >>> 18) :: b64 (val >>> 12) :: b64 (val >>> 6) :: b64 val ::
      base64RawURLEncode rest

/-- Addition of `uint32`. -/
def add32 (x y : Nat) : Nat := (x + y) % 2 ^ 32

/-- Rotation to the right of a `uint32`. -/
def rotr (x n : Nat) : Nat := (x >>> n ||| x <<< (32 - n)) % 2 ^ 32

/-- Integer root by bisection: with `r = 0` and `2 ^ bits` above the root,
the largest `c` with `c ^ k ≤ x`. -/
def iroot (k x : Nat) : Nat → Nat → Nat
  | 0, r => r
  | bits + 1, r => iroot k x bits (if (r + 2 ^ bits) ^ k ≤ x then r + 2 ^ bits else r)

/-- The first sixty-four prime numbers. -/
def sha256Primes : List Nat :=
  [2, 3, 5, 7, 11, 13, 17, 19, 23, 29, 31, 37, 41, 43, 47, 53, 59, 61, 67, 71, 73, 79, 83, 89,
   97, 101, 103, 107, 109, 113, 127, 131, 137, 139, 149, 151, 157, 163, 167, 173, 179, 181, 191,
   193, 197, 199, 211, 223, 227, 229, 233, 239, 241, 251, 257, 263, 269, 271, 277, 281, 283, 293,
   307, 311]

/-- Round constants of SHA-256: the first 32 bits of the fractional parts
of the cube roots of the first sixty-four primes (FIPS 180-4, 4.2.2). -/
def sha256K : List Nat :=
  sha256Primes.map fun p => iroot 3 (p * 2 ^ 96) 40 0 % 2 ^ 32

/-- Initial hash value of SHA-256: the first 32 bits of the fractional
parts of the square roots of the first eight primes (FIPS 180-4, 5.3.3). -/
def sha256Init : List Nat :=
  (sha256Primes.take 8).map fun p => iroot 2 (p * 2 ^ 64) 40 0 % 2 ^ 32

/-- Big-endian bytes of a number, `n` of them. -/
def beBytes : Nat → Nat → Str
  | 0, _ => []
  | n + 1, x => (x >>> (8 * n)) % 256 :: beBytes n x

/-- Padded message: the byte `0x80`, zeros up to 56 modulo 64, and the
length in bits as 8 big-endian bytes. -/
def sha256Pad (msg : Str) : Str :=
  msg ++ [0x80] ++ List.replicate ((119 - msg.length % 64) % 64) 0 ++ beBytes 8 (8 * msg.length)

/-- Big-endian `uint32` words of a byte sequence. -/
def beWords : Nat → Str → List Nat
  | 0, _ => []
  | n + 1, s =>
    (s.getD 0 0 <<< 24 ||| s.getD 1 0 <<< 16 ||| s.getD 2 0 <<< 8 ||| s.getD 3 0) ::
      beWords n (s.drop 4)

/-- Message schedule extended by `n` words. -/
def sha256Schedule : Nat → List Nat → List Nat
  | 0, w => w
  | n + 1, w =>
    let i := w.length
    let v1 := w.getD (i - 2) 0
    let v2 := w.getD (i - 15) 0
    let t1 := rotr v1 17 ^^^ rotr v1 19 ^^^ (v1 >>> 10)
    let t2 := rotr v2 7 ^^^ rotr v2 18 ^^^ (v2 >>> 3)
    sha256Schedule n (w ++ [add32 (add32 t1 (w.getD (i - 7) 0)) (add32 t2 (w.getD (i - 16) 0))])

/-- One round of the compression function on the working variables
`[a, b, c, d, e, f, g, h]`. -/
def sha256Round (v : List Nat) (kw : Nat × Nat) : List Nat :=
  let a := v.getD 0 0
  let b := v.getD 1 0
  let c := v.getD 2 0
  let d := v.getD 3 0
  let e := v.getD 4 0
  let f := v.getD 5 0
  let g := v.getD 6 0
  let h := v.getD 7 0
  let s1 := rotr e 6 ^^^ rotr e 11 ^^^ rotr e 25
  let ch := (e &&& f) ^^^ ((e ^^^ 0xffffffff) &&& g)
  let t1 := add32 (add32 (add32 h s1) (add32 ch kw.1)) kw.2
  let s0 := rotr a 2 ^^^ rotr a 13 ^^^ rotr a 22
  let maj := (a &&& b) ^^^ (a &&& c) ^^^ (b &&& c)
  let t2 := add32 s0 maj
  [add32 t1 t2, a, b, c, add32 d t1, e, f, g]

/-- Compression of one 64-byte block into the hash value. -/
def sha256Block (h : List Nat) (block : Str) : List Nat :=
  let w := sha256Schedule 48 (beWords 16 block)
  List.zipWith add32 h ((sha256K.zip w).foldl sha256Round h)

/-- All blocks of the padded message, `n` of them. -/
def sha256Blocks : Nat → List Nat → Str → List Nat
  | 0, h, _ => h
  | n + 1, h, p => sha256Blocks n (sha256Block h (p.take 64)) (p.drop 64)

/-- Go `sha256.New()`, `Write(msg)`, `Sum(nil)`: the SHA-256 digest of
`msg` (FIPS 180-4), 32 bytes. -/
def sha256 (msg : Str) : Str :=
  let p := sha256Pad msg
  ((sha256Blocks (p.length / 64) sha256Init p).map (beBytes 4)).flatten

/-- Digits of Go `%x`. -/
def hexDigit (v : Nat) : Nat := (str "0123456789abcdef").getD v 0

/-- Go `fmt.Sprintf("%x", b)` for a byte slice: two lower-case hexadecimal
digits for each byte. -/
def hexBytes : Str → Str
  | [] => []
  | b :: rest => hexDigit (b >>> 4) :: hexDigit (b &&& 0x0F) :: hexBytes rest

/-- Go `fmt.Sprintf("%d", n)` for a non-negative integer. -/
def itoa (n : Nat) : Str := str (Nat.repr n)

/-- Go slice expression `b[i:j]`. -/
def slice (b : Str) (i j : Nat) : Str := (b.drop i).take (j - i)

/-! ## PKCE pair, session identifier, login link -/

/-- Go `generatePkcePair`.  The argument is the random source as the call
finds it: `read n` is the outcome of `rand.Read` on a buffer of `n` bytes,
the bytes read or `none` when it reports an error, in which case the
function panics (`none`). -/
def generatePkcePair (read : Nat → Option Str) : Option (Str × Str) :=
  match read 43 with
  | none => none
  | some b =>
    let verifier := base64RawURLEncode b
    let challenge := base64RawURLEncode (sha256 verifier)
    some (verifier, challenge)

/-- Go `getLoginUrl`. -/
def getLoginUrl (uuid challenge : Str) : Str :=
  str "https://www.cursor.com/loginDeepControl?challenge=" ++ challenge ++ str "&uuid=" ++ uuid ++
    str "&mode=login"

/-- Go `generateUUID`, the random source passed as for `generatePkcePair`;
`none` is the panic on an error of `rand.Read`. -/
def generateUUID (read : Nat → Option Str) : Option Str :=
  match read 16 with
  | none => none
  | some b =>
    let b := b.set 6 ((b.getD 6 0 &&& 0x0F) ||| 0x40)
    let b := b.set 8 ((b.getD 8 0 &&& 0x3F) ||| 0x80)
    some (hexBytes (slice b 0 4) ++ str "-" ++ hexBytes (slice b 4 6) ++ str "-" ++
      hexBytes (slice b 6 8) ++ str "-" ++ hexBytes (slice b 8 10) ++ str "-" ++
      hexBytes (b.drop 10))

/-! ## The outside world -/

/-- Go `error`, identified with its message. -/
abbrev GoError := Str

/-- Files of the working directory: the content of the file at a path (when
`os.Stat` succeeds on it), and the errors `os.ReadFile` and `os.WriteFile`
report for a path, if any. -/
structure FileSys where
  files : Str → Option Str
  readErr : Str → Option GoError
  writeErr : Str → Option GoError

/-- Successful `os.WriteFile(path, content, 0644)`. -/
def FileSys.write (fs : FileSys) (path content : Str) : FileSys :=
  { fs with files := fun p => if p = path then some content else fs.files p }

/-- Response of the HTTP client: status code and the outcome of reading
the body with `io.ReadAll`. -/
structure HttpResponse where
  StatusCode : Nat
  Body : Except GoError Str

/-- Everything `Login` reads from outside the program. -/
structure World where
  /-- Random source when `generatePkcePair` is called. -/
  randPkce : Nat → Option Str
  /-- Random source when `generateUUID` is called. -/
  randUUID : Nat → Option Str
  /-- Value of `runtime.GOOS`. -/
  goos : Str
  /-- Outcome of `exec.Command(name, args...).Start()`. -/
  cmdStart : Str → List Str → Option GoError
  /-- Outcome of `http.NewRequest` and `client.Do` for a GET of the URL. -/
  httpDo : Str → Except GoError HttpResponse
  /-- Go `json.Unmarshal` of a body into an `AuthResponse`. -/
  jsonUnmarshal : Str → Except GoError AuthResponse
  fs : FileSys

/-- Go `openBrowser`: the error it returns, if any. -/
def openBrowser (w : World) (url : Str) : Option GoError :=
  if w.goos = str "windows" then w.cmdStart (str "rundll32") [str "url.dll,FileProtocolHandler", url]
  else if w.goos = str "darwin" then w.cmdStart (str "open") [url]
  else if w.goos = str "linux" then w.cmdStart (str "xdg-open") [url]
  else some (str "unsupported platform")

/-- Go `queryAuthPoll`. -/
def queryAuthPoll (w : World) (uuid verifier : Str) : Except GoError AuthResponse :=
  let authPollUrl := str "https://api2.cursor.sh/auth/poll?uuid=" ++ uuid ++ str "&verifier=" ++ verifier
  match w.httpDo authPollUrl with
  | .error err => .error err
  | .ok resp =>
    if resp.StatusCode ≠ 200 then
      .error (str "auth poll failed with status: " ++ itoa resp.StatusCode)
    else
      match resp.Body with
      | .error err => .error err
      | .ok body => w.jsonUnmarshal body

/-! ## Config patching -/

/-- Paths `updateConfig` visits. -/
def configPaths : List Str := [str "./config.yaml", str "./config/config.yaml"]

/-- First placeholder. -/
def placeholderUpper : Str := str "cookie: \"YOUR_CURSOR_TOKEN_HERE\""

/-- Second placeholder. -/
def placeholderLower : Str := str "cookie: \"your_cursor_session_token_here\""

/-- Go `fmt.Sprintf("cookie: \"%s\"", token)`. -/
def cookieLine (token : Str) : Str := str "cookie: \"" ++ token ++ str "\""

/-- Body of the loop of `updateConfig` for one path, on the file system
and the text printed so far. -/
def updateConfigAt (token : Str) (st : FileSys × List Str) (path : Str) : FileSys × List Str :=
  match st.1.files path with
  | none => st
  | some content =>
    match st.1.readErr path with
    | some err =>
      (st.1, st.2 ++ [str "Warning: Could not read config file " ++ path ++ str ": " ++ err ++ str "\n"])
    | none =>
      let newContent := Replace content placeholderUpper (cookieLine token) (-1)
      let newContent := Replace newContent placeholderLower (cookieLine token) (-1)
      match st.1.writeErr path with
      | some err =>
        (st.1, st.2 ++ [str "Warning: Could not update config file " ++ path ++ str ": " ++ err ++ str "\n"])
      | none =>
        (st.1.write path newContent, st.2 ++ [str "Updated token in " ++ path ++ str "\n"])

/-- Go `updateConfig`: the file system and the text printed afterwards. -/
def updateConfig (token : Str) (st : FileSys × List Str) : FileSys × List Str :=
  configPaths.foldl (updateConfigAt token) st

/-! ## Login -/

/-- What a run of `Login` that returns leaves behind: the two values
returned, the text printed and the file system afterwards. -/
structure LoginRun where
  token : Str
  err : Option GoError
  stdout : List Str
  fs : FileSys

/-- Go `Login`, for a run in which the console read of `waitForKeyPress`
returns.  `none` is the panic of `generatePkcePair` or `generateUUID`. -/
def Login (w : World) : Option LoginRun :=
  match generatePkcePair w.randPkce with
  | none => none
  | some (verifier, challenge) =>
    match generateUUID w.randUUID with
    | none => none
    | some uuid =>
      let loginUrl := getLoginUrl uuid challenge
      let out := [str "=== Cursor Login ===\n",
        str "Please open the following URL in your browser to login:\n", loginUrl ++ str "\n"]
      let out := match openBrowser w loginUrl with
        | some _ => out ++ [str "Could not open browser automatically. Please copy and paste the URL into your browser.\n"]
        | none => out
      let out := out ++ [str "\nWaiting for login... Press Enter after you've logged in to save cookies.\n",
        str "Press Enter to continue...\n", str "Checking login status...\n"]
      let run : LoginRun := { token := [], err := none, stdout := out, fs := w.fs }
      match queryAuthPoll w uuid verifier with
      | .error err => some { run with err := some (str "login failed: " ++ err) }
      | .ok authResp =>
        if authResp.AccessToken = [] then
          some { run with err := some (str "login failed: no access token received") }
        else
          match formatToken authResp with
          | none => none
          | some token =>
            if token = [] then
              some { run with err := some (str "login failed: could not format token") }
            else
              let out := out ++ [str "Login successful!\n",
                str "Your Cursor cookie (WorkosCursorSessionToken):\n", token ++ str "\n"]
              let st := updateConfig token (w.fs, out)
              some { run with token := token, stdout := st.2, fs := st.1 }

/-! ## Sample worlds -/

/-- A working directory with the one file `./config.yaml`, readable and
writable. -/
def sampleFiles (content : Str) : FileSys :=
  { files := fun p => if p = str "./config.yaml" then some content else none
    readErr := fun _ => none
    writeErr := fun _ => none }

/-- A world in which both random reads succeed, the browser opens, the
poll answers with status 200 and its body decodes to `authResp`, and the
working directory holds a `./config.yaml` with the placeholder. -/
def sampleWorld (authResp : AuthResponse) : World :=
  { randPkce := fun n => some (List.replicate n 0)
    randUUID := fun n => some (List.replicate n 255)
    goos := str "linux"
    cmdStart := fun _ _ => none
    httpDo := fun _ => .ok { StatusCode := 200, Body := .ok (str "ok") }
    jsonUnmarshal := fun _ => .ok authResp
    fs := sampleFiles (str "cookie: \"YOUR_CURSOR_TOKEN_HERE\"\n") }

/-! ## Facts about the `strings` functions -/

theorem Index_byte (c : Nat) (s : Str) :
    Index s [c] = if c ∈ s then some (s.takeWhile (· ≠ c)).length else none := by
  induction s with
  | nil => simp [Index]
  | cons x s ih =>
    by_cases hx : c = x
    · subst hx
      simp [Index, List.isPrefixOf]
    · have hx2 : ¬ x = c := fun h => hx h.symm
      simp [Index, List.isPrefixOf, hx, hx2, ih, List.takeWhile_cons]

theorem take_length_takeWhile (p : Nat → Bool) (s : Str) :
    s.take (s.takeWhile p).length = s.takeWhile p := by
  induction s with
  | nil => simp
  | cons x s ih =>
    by_cases hx : p x <;> simp [List.takeWhile_cons, hx, ih]

theorem takeWhile_of_not_mem (c : Nat) (s : Str) (h : c ∉ s) : s.takeWhile (· ≠ c) = s := by
  induction s with
  | nil => simp
  | cons x s ih =>
    simp only [List.mem_cons, not_or] at h
    have hx2 : ¬ x = c := fun e => h.1 e.symm
    have := ih h.2
    simp only [List.takeWhile_cons, hx2, ne_eq, not_false_eq_true, decide_True, if_true, this]

theorem takeWhile_append_byte (c : Nat) (a r : Str) (h : c ∉ a) :
    (a ++ c :: r).takeWhile (· ≠ c) = a := by
  induction a with
  | nil => simp
  | cons x a ih =>
    simp only [List.mem_cons, not_or] at h
    have hx2 : ¬ x = c := fun e => h.1 e.symm
    have := ih h.2
    simp only [List.cons_append, List.takeWhile_cons, hx2, ne_eq, not_false_eq_true, decide_True,
      if_true, this]

theorem Index_byte_append (c : Nat) (a r : Str) (h : c ∉ a) :
    Index (a ++ c :: r) [c] = some a.length := by
  rw [Index_byte, if_pos (by simp), takeWhile_append_byte c a r h]

theorem Contains_byte (c : Nat) (s : Str) : Contains s [c] = true ↔ c ∈ s := by
  unfold Contains
  rw [Index_byte]
  split <;> simp [*]

/-- First segment cut by `splitLoop` at a one-byte separator: the bytes
before the first separator, provided a cut is still allowed when there is
a separator. -/
theorem splitLoop_byte_head (c : Nat) (n : Nat) (r : Str) (h : n = 0 → c ∉ r) :
    (splitLoop [c] n r)[0]? = some (r.takeWhile (· ≠ c)) := by
  cases n with
  | zero => rw [takeWhile_of_not_mem c r (h rfl)]; simp [splitLoop]
  | succ n =>
    by_cases hc : c ∈ r
    · simp only [splitLoop, Index_byte, hc, if_true, take_length_takeWhile]
      simp
    · rw [takeWhile_of_not_mem c r hc]
      simp [splitLoop, Index_byte, hc]

theorem countLoop_byte_pos (c : Nat) (k : Nat) (r : Str) (hk : 0 < k) (hc : c ∈ r) :
    0 < countLoop [c] k r := by
  cases k with
  | zero => omega
  | succ k => simp [countLoop, Index_byte, hc]

/-- Second element of `strings.Split(authId, "|")` when `authId` has a
pipe: the bytes between the first pipe and the next one (or the end). -/
theorem Split_byte_second (c : Nat) (a r : Str) (h : c ∉ a) :
    (Split (a ++ c :: r) [c])[1]? = some (r.takeWhile (· ≠ c)) := by
  have hcount : Count (a ++ c :: r) [c] = 1 + countLoop [c] (a.length + r.length) r := by
    simp [Count, countLoop, Index_byte_append c a r h, List.drop_append]
  have hfuel : ∃ n, min (Count (a ++ c :: r) [c] + 1) ((a ++ c :: r).length + 1) - 1 = n + 1 ∧
      (n = 0 → c ∉ r) := by
    refine ⟨min (Count (a ++ c :: r) [c] + 1) ((a ++ c :: r).length + 1) - 2, ?_, ?_⟩
    · rw [hcount]; simp; omega
    · intro h0 hc
      have := countLoop_byte_pos c (a.length + r.length) r
        (by have := List.length_pos_of_mem hc; omega) hc
      have hl := List.length_pos_of_mem hc
      rw [hcount] at h0
      simp at h0
      omega
  obtain ⟨n, hn, hn0⟩ := hfuel
  unfold Split
  rw [hn]
  simp only [splitLoop, Index_byte_append c a r h]
  have hd : List.drop (a.length + [c].length) (a ++ c :: r) = r := by
    simp [List.drop_append]
  rw [hd]
  simpa using splitLoop_byte_head c n r hn0

theorem exists_first_byte (c : Nat) (s : Str) (h : c ∈ s) :
    ∃ a r, s = a ++ c :: r ∧ c ∉ a := by
  obtain ⟨a, r, hs, ha⟩ := List.eq_append_cons_of_mem h
  exact ⟨a, r, hs, ha⟩

theorem str_pipe : str "|" = ['|'.toNat] := rfl

/-! ## Token formatting -/

/-- C1 (amended): for a non-empty access token and an auth identifier with
a pipe, written `a ++ "|" ++ r` with no pipe in `a`, `formatToken` returns
`userId ++ "%3A%3A" ++ accessToken` where `userId` is the second element of
the identifier split at every pipe: the bytes of `r` up to its first pipe,
all of `r` when it has none. -/
theorem formatToken_pipe (accessToken a r : Str) (hTok : accessToken ≠ [])
    (hA : '|'.toNat ∉ a) :
    formatToken ⟨accessToken, a ++ str "|" ++ r⟩ =
      some (r.takeWhile (· ≠ '|'.toNat) ++ str "%3A%3A" ++ accessToken) := by
  have hin : '|'.toNat ∈ a ++ '|'.toNat :: r := by simp
  have hC : Contains (a ++ '|'.toNat :: r) ['|'.toNat] = true :=
    (Contains_byte _ _).2 hin
  simp only [formatToken, str_pipe, List.append_assoc, List.singleton_append, hTok, if_false, hC,
    if_true, Split_byte_second _ a r hA]

theorem formatToken_pipe_witness :
    str "abc" ≠ [] ∧ '|'.toNat ∉ str "org_1" ∧
      formatToken ⟨str "abc", str "org_1|user_42"⟩ = some (str "user_42%3A%3Aabc") :=
  ⟨by decide, by decide,
    formatToken_pipe (str "abc") (str "org_1") (str "user_42") (by decide) (by decide)⟩

/-- C1 as stated fails: with two pipes in the identifier the user id is not
everything after the first pipe.  For `{accessToken:"abc", authId:"a|b|c"}`
the code returns `"b%3A%3Aabc"`, not `"b|c%3A%3Aabc"`. -/
theorem formatToken_pipe_not_rest :
    ¬ ∀ accessToken a r : Str, accessToken ≠ [] → '|'.toNat ∉ a →
      formatToken ⟨accessToken, a ++ str "|" ++ r⟩ = some (r ++ str "%3A%3A" ++ accessToken) := by
  intro h
  have h1 := h (str "abc") (str "a") (str "b|c") (by decide) (by decide)
  revert h1
  decide

/-- C8: for a non-empty access token and an auth identifier without a
pipe, `formatToken` returns the access token unchanged. -/
theorem formatToken_no_pipe (accessToken authId : Str) (hTok : accessToken ≠ [])
    (hA : '|'.toNat ∉ authId) :
    formatToken ⟨accessToken, authId⟩ = some accessToken := by
  have hC : ¬ Contains authId [124] = true := fun h => hA ((Contains_byte 124 _).1 h)
  simp [formatToken, str_pipe, hTok, hC]

theorem formatToken_no_pipe_witness :
    str "abc" ≠ [] ∧ '|'.toNat ∉ str "user_42" ∧
      formatToken ⟨str "abc", str "user_42"⟩ = some (str "abc") :=
  ⟨by decide, by decide, formatToken_no_pipe (str "abc") (str "user_42") (by decide) (by decide)⟩

theorem formatToken_some_ne_nil (authResp : AuthResponse) (hTok : authResp.AccessToken ≠ []) :
    ∃ token, formatToken authResp = some token ∧ token ≠ [] := by
  obtain ⟨accessToken, authId⟩ := authResp
  simp only at hTok
  by_cases hp : '|'.toNat ∈ authId
  · obtain ⟨a, r, rfl, ha⟩ := exists_first_byte _ _ hp
    have := formatToken_pipe accessToken a r hTok ha
    simp only [str_pipe, List.append_assoc, List.singleton_append] at this
    exact ⟨_, this, by simp [hTok]⟩
  · exact ⟨_, formatToken_no_pipe accessToken authId hTok hp, hTok⟩

/-! ## Runs of `Login` -/

theorem updateConfigAt_stdout (token : Str) (st : FileSys × List Str) (path x : Str)
    (hx : x ∈ st.2) : x ∈ (updateConfigAt token st path).2 := by
  unfold updateConfigAt
  split
  · exact hx
  · split
    · simp [hx]
    · split <;> simp [hx]

theorem updateConfig_stdout (token : Str) (st : FileSys × List Str) (x : Str)
    (hx : x ∈ st.2) : x ∈ (updateConfig token st).2 := by
  unfold updateConfig configPaths
  simp only [List.foldl]
  exact updateConfigAt_stdout _ _ _ _ (updateConfigAt_stdout _ _ _ _ hx)

theorem updateConfigAt_stdout_append (token : Str) (st : FileSys × List Str) (path : Str) :
    ∃ extra, (updateConfigAt token st path).2 = st.2 ++ extra := by
  unfold updateConfigAt
  split
  · exact ⟨[], by simp⟩
  · split
    · exact ⟨_, rfl⟩
    · split
      · exact ⟨_, rfl⟩
      · exact ⟨_, rfl⟩

theorem updateConfig_stdout_append (token : Str) (st : FileSys × List Str) :
    ∃ extra, (updateConfig token st).2 = st.2 ++ extra := by
  unfold updateConfig configPaths
  simp only [List.foldl]
  obtain ⟨e1, h1⟩ := updateConfigAt_stdout_append token st (str "./config.yaml")
  obtain ⟨e2, h2⟩ := updateConfigAt_stdout_append token
    (updateConfigAt token st (str "./config.yaml")) (str "./config/config.yaml")
  exact ⟨e1 ++ e2, by rw [h2, h1, List.append_assoc]⟩

/-- What a run of `Login` does once both random reads have succeeded: it
returns; it prints the link built from the generated challenge and
identifier, then the warning when `openBrowser` on that link reports an
error, then the three lines up to the poll; and the result follows the
outcome of `queryAuthPoll` on the generated identifier and verifier. -/
theorem Login_run (w : World) (verifier challenge uuid : Str)
    (hP : generatePkcePair w.randPkce = some (verifier, challenge))
    (hU : generateUUID w.randUUID = some uuid) :
    ∃ run rest, Login w = some run ∧
      run.stdout =
        [str "=== Cursor Login ===\n",
          str "Please open the following URL in your browser to login:\n",
          getLoginUrl uuid challenge ++ str "\n"] ++
        (match openBrowser w (getLoginUrl uuid challenge) with
         | some _ => [str "Could not open browser automatically. Please copy and paste the URL into your browser.\n"]
         | none => []) ++
        [str "\nWaiting for login... Press Enter after you've logged in to save cookies.\n",
          str "Press Enter to continue...\n", str "Checking login status...\n"] ++ rest ∧
      (match queryAuthPoll w uuid verifier with
       | .error err => run.err = some (str "login failed: " ++ err) ∧ run.token = []
       | .ok authResp =>
         if authResp.AccessToken = [] then
           run.err = some (str "login failed: no access token received") ∧ run.token = []
         else run.err = none ∧ formatToken authResp = some run.token ∧ run.token ≠ []) := by
  unfold Login
  rw [hP, hU]
  simp only
  cases hq : queryAuthPoll w uuid verifier with
  | error err =>
    refine ⟨_, [], rfl, ?_, rfl, rfl⟩
    simp only
    split <;> simp
  | ok authResp =>
    by_cases hTok : authResp.AccessToken = []
    · simp only [hTok, if_true]
      refine ⟨_, [], rfl, ?_, rfl, rfl⟩
      simp only
      split <;> simp
    · obtain ⟨token, hf, hne⟩ := formatToken_some_ne_nil authResp hTok
      simp only [hTok, if_false, hf, hne]
      obtain ⟨extra, hextra⟩ := updateConfig_stdout_append token
        (w.fs, (match openBrowser w (getLoginUrl uuid challenge) with
          | some _ => [str "=== Cursor Login ===\n",
              str "Please open the following URL in your browser to login:\n",
              getLoginUrl uuid challenge ++ str "\n"] ++
              [str "Could not open browser automatically. Please copy and paste the URL into your browser.\n"]
          | none => [str "=== Cursor Login ===\n",
              str "Please open the following URL in your browser to login:\n",
              getLoginUrl uuid challenge ++ str "\n"]) ++
          [str "\nWaiting for login... Press Enter after you've logged in to save cookies.\n",
            str "Press Enter to continue...\n", str "Checking login status...\n"] ++
          [str "Login successful!\n", str "Your Cursor cookie (WorkosCursorSessionToken):\n",
            token ++ str "\n"])
      refine ⟨_, [str "Login successful!\n",
        str "Your Cursor cookie (WorkosCursorSessionToken):\n", token ++ str "\n"] ++ extra,
        rfl, ?_, rfl, rfl, hne⟩
      simp only
      rw [hextra]
      simp only
      split <;> simp

/-! ## Config patching -/

theorem Index_some_instance (sub : Str) (s : Str) (j : Nat) (h : Index s sub = some j) :
    sub <+: s.drop j ∧ j ≤ s.length := by
  induction s generalizing j with
  | nil =>
    by_cases hs : sub = []
    · subst hs; simp [Index] at h; subst h; simp
    · simp [Index, hs] at h
  | cons x s ih =>
    by_cases hp : sub.isPrefixOf (x :: s) = true
    · simp only [Index, hp, if_true, Option.some.injEq] at h
      subst h
      exact ⟨ List.isPrefixOf_iff_prefix.1 hp, Nat.zero_le _⟩
    · simp only [Index, hp] at h
      cases hi : Index s sub with
      | none => simp [hi] at h
      | some j' =>
        simp [hi] at h
        subst h
        have := ih j' hi
        exact ⟨by simpa using this.1, by simpa using this.2⟩

/-- The instance `Index` finds is the first one. -/
theorem Index_first (sub : Str) (s : Str) (j : Nat) (h : Index s sub = some j) :
    ∀ i < j, sub.isPrefixOf (s.drop i) = false := by
  induction s generalizing j with
  | nil =>
    by_cases hs : sub = []
    · subst hs; simp [Index] at h; subst h; simp
    · simp [Index, hs] at h
  | cons x s ih =>
    by_cases hp : sub.isPrefixOf (x :: s) = true
    · simp only [Index, hp, if_true, Option.some.injEq] at h
      subst h
      simp
    · simp only [Index, hp] at h
      cases hi : Index s sub with
      | none => simp [hi] at h
      | some k =>
        simp [hi] at h
        subst h
        intro i hlt
        cases i with
        | zero => simpa using Bool.eq_false_iff.2 hp
        | succ i => simpa using ih k hi i (by omega)

theorem Index_none_no_instance (sub : Str) (s : Str) (h : Index s sub = none) : ¬ sub <:+: s := by
  induction s with
  | nil =>
    intro hin
    have : sub = [] := by simpa using hin
    simp [Index, this] at h
  | cons x s ih =>
    by_cases hp : sub.isPrefixOf (x :: s) = true
    · simp [Index, hp] at h
    · simp only [Index, hp] at h
      have hn : Index s sub = none := by
        cases hi : Index s sub with
        | none => rfl
        | some j => simp [hi] at h
      intro hin
      rcases List.infix_cons_iff.1 hin with h1 | h1
      · exact hp ( List.isPrefixOf_iff_prefix.2 h1)
      · exact ih hn h1

theorem Index_none_of_no_instance (sub : Str) (s : Str) (h : ¬ sub <:+: s) : Index s sub = none := by
  cases hi : Index s sub with
  | none => rfl
  | some j =>
    exfalso
    obtain ⟨⟨t, ht⟩, _⟩ := Index_some_instance sub s j hi
    apply h
    refine ⟨s.take j, t, ?_⟩
    rw [List.append_assoc, ht, List.take_append_drop]

theorem Count_of_Index_none (sub s : Str) (h : Index s sub = none) : Count s sub = 0 := by
  unfold Count
  cases s.length with
  | zero => rfl
  | succ k => simp [countLoop, h]

theorem countLoop_of_Index_none (sub s : Str) (k : Nat) (h : Index s sub = none) :
    countLoop sub k s = 0 := by
  cases k with
  | zero => rfl
  | succ k => simp [countLoop, h]

/-- Nothing is replaced in a string without an instance of `old`. -/
theorem Replace_no_instance (s old new : Str) (n : Int) (h : ¬ old <:+: s) :
    Replace s old new n = s := by
  unfold Replace
  simp [Count_of_Index_none old s (Index_none_of_no_instance old s h)]

/-- The only instance of a non-empty `old` is replaced. -/
theorem Replace_once (pre old post new : Str) (hold : old ≠ [])
    (hOnce : ∀ a b, pre ++ old ++ post = a ++ old ++ b → a = pre) :
    Replace (pre ++ old ++ post) old new (-1) = pre ++ new ++ post := by
  have hlen : 0 < old.length := List.length_pos.2 hold
  have hidx : Index (pre ++ old ++ post) old = some pre.length := by
    cases hi : Index (pre ++ old ++ post) old with
    | none => exact absurd ⟨pre, post, rfl⟩ (Index_none_no_instance _ _ hi)
    | some j =>
      obtain ⟨⟨t, ht⟩, hj⟩ := Index_some_instance old _ j hi
      have hdec : pre ++ old ++ post = (pre ++ old ++ post).take j ++ old ++ t := by
        rw [List.append_assoc _ old t, ht, List.take_append_drop]
      have := hOnce _ _ hdec
      have hl := congrArg List.length this
      simp only [List.length_take] at hl
      congr 1
      omega
  have hpost : Index post old = none := by
    apply Index_none_of_no_instance
    rintro ⟨a, b, hab⟩
    have := hOnce (pre ++ old ++ a) b (by rw [← hab]; simp [List.append_assoc])
    have hl := congrArg List.length this
    simp only [List.length_append] at hl
    omega
  have hdrop : (pre ++ old ++ post).drop (pre.length + old.length) = post := by
    rw [← List.length_append, List.drop_left]
  have hcount : Count (pre ++ old ++ post) old = 1 := by
    unfold Count
    have : (pre ++ old ++ post).length = (pre.length + old.length + post.length - 1) + 1 := by
      simp; omega
    rw [this]
    simp only [countLoop, hidx, hdrop, countLoop_of_Index_none old post _ hpost]
  have htake : (pre ++ old ++ post).take pre.length = pre := by
    rw [List.append_assoc, List.take_left]
  by_cases hon : old = new
  · simp [Replace, hon]
  · generalize pre ++ old ++ post = s at hidx hdrop hcount htake
    have hloop : Replace s old new (-1) = replaceLoop old new 1 s := by
      simp [Replace, hon, hcount]
    rw [hloop]
    simp only [replaceLoop, hidx, hdrop, htake]

/-- The bound `len(s)` that `Count` passes to its loop is never reached:
for a non-empty `substr` a larger bound gives the same count. -/
theorem countLoop_bound (substr : Str) (hsub : substr ≠ []) (k : Nat) :
    ∀ s : Str, s.length ≤ k → countLoop substr k s = countLoop substr s.length s := by
  induction k using Nat.strong_induction_on with
  | _ k ih =>
    intro s hs
    cases k with
    | zero =>
      have : s.length = 0 := by omega
      rw [this]
    | succ k =>
      cases hi : Index s substr with
      | none => rw [countLoop_of_Index_none _ _ _ hi, countLoop_of_Index_none _ _ _ hi]
      | some i =>
        obtain ⟨⟨t, ht⟩, hle⟩ := Index_some_instance substr s i hi
        have hlen : 0 < substr.length := List.length_pos.2 hsub
        have hd : (s.drop i).length = substr.length + t.length := by
          rw [← ht, List.length_append]
        rw [List.length_drop] at hd
        obtain ⟨m, hm⟩ : ∃ m, s.length = m + 1 := ⟨s.length - 1, by omega⟩
        have hdl : (s.drop (i + substr.length)).length ≤ m := by
          rw [List.length_drop]; omega
        rw [hm]
        simp only [countLoop, hi]
        rw [ih k (Nat.lt_succ_self k) _ (by omega), ih m (by omega) _ hdl]

theorem updateConfigAt_errs (token : Str) (st : FileSys × List Str) (q : Str) :
    (updateConfigAt token st q).1.readErr = st.1.readErr ∧
      (updateConfigAt token st q).1.writeErr = st.1.writeErr := by
  unfold updateConfigAt
  split
  · exact ⟨rfl, rfl⟩
  · split
    · exact ⟨rfl, rfl⟩
    · split <;> exact ⟨rfl, rfl⟩

theorem updateConfigAt_other (token : Str) (st : FileSys × List Str) (q path : Str)
    (hne : path ≠ q) : (updateConfigAt token st q).1.files path = st.1.files path := by
  unfold updateConfigAt
  split
  · rfl
  · split
    · rfl
    · split
      · rfl
      · simp [FileSys.write, hne]

theorem updateConfigAt_same (token : Str) (st : FileSys × List Str) (path content : Str)
    (hFile : st.1.files path = some content) (hRead : st.1.readErr path = none)
    (hWrite : st.1.writeErr path = none) :
    (updateConfigAt token st path).1.files path =
      some (Replace (Replace content placeholderUpper (cookieLine token) (-1))
        placeholderLower (cookieLine token) (-1)) ∧
      str "Updated token in " ++ path ++ str "\n" ∈ (updateConfigAt token st path).2 := by
  unfold updateConfigAt
  simp [hFile, hRead, hWrite, FileSys.write]

/-- A config file that exists, can be read and can be written holds, after
`updateConfig`, its content with the two replacements applied in turn, and
the update is reported. -/
theorem updateConfig_files (token : Str) (fs : FileSys) (out : List Str) (path content : Str)
    (hPath : path ∈ configPaths) (hFile : fs.files path = some content)
    (hRead : fs.readErr path = none) (hWrite : fs.writeErr path = none) :
    (updateConfig token (fs, out)).1.files path =
      some (Replace (Replace content placeholderUpper (cookieLine token) (-1))
        placeholderLower (cookieLine token) (-1)) ∧
      str "Updated token in " ++ path ++ str "\n" ∈ (updateConfig token (fs, out)).2 := by
  have hne : str "./config.yaml" ≠ str "./config/config.yaml" := by decide
  unfold updateConfig configPaths
  simp only [List.foldl]
  simp only [configPaths, List.mem_cons, List.mem_singleton, List.not_mem_nil, or_false] at hPath
  rcases hPath with rfl | rfl
  · have h1 := updateConfigAt_same token (fs, out) _ content hFile hRead hWrite
    exact ⟨by rw [updateConfigAt_other _ _ _ _ hne]; exact h1.1,
      updateConfigAt_stdout _ _ _ _ h1.2⟩
  · have he := updateConfigAt_errs token (fs, out) (str "./config.yaml")
    apply updateConfigAt_same
    · rw [updateConfigAt_other _ _ _ _ hne.symm]; exact hFile
    · rw [he.1]; exact hRead
    · rw [he.2]; exact hWrite

theorem placeholderUpper_ne_nil : placeholderUpper ≠ [] := by decide

theorem only_instance_of_positions (s sub pre post : Str) (hs : s = pre ++ sub ++ post)
    (hchk : ∀ k < s.length + 1, sub.isPrefixOf (s.drop k) = true → k = pre.length) :
    ∀ a b, s = a ++ sub ++ b → a = pre := by
  intro a b hab
  have hd : s.drop a.length = sub ++ b := by
    rw [hab, List.append_assoc, List.drop_left]
  have hp : sub.isPrefixOf (s.drop a.length) = true := by
    rw [hd]; exact List.isPrefixOf_iff_prefix.2 ⟨b, rfl⟩
  have hlen : a.length < s.length + 1 := by
    rw [hab]; simp only [List.length_append]; omega
  have hk := hchk a.length hlen hp
  have h1 : s.take a.length = a := by rw [hab, List.append_assoc, List.take_left]
  have h2 : s.take pre.length = pre := by rw [hs, List.append_assoc, List.take_left]
  rw [← h1, hk, h2]

/-- C3 (amended): a config file whose content is `pre ++ placeholder ++
post` with the placeholder `cookie: "YOUR_CURSOR_TOKEN_HERE"` at that one
place only, without the second placeholder, and such that the text
`pre ++ cookie: "T" ++ post` does not contain the second placeholder
either, holds exactly `pre ++ cookie: "T" ++ post` after `updateConfig` has
read and written it. -/
theorem updateConfig_replaces_placeholder (token pre post : Str) (fs : FileSys)
    (out : List Str) (path : Str) (hPath : path ∈ configPaths)
    (hFile : fs.files path = some (pre ++ placeholderUpper ++ post))
    (hRead : fs.readErr path = none) (hWrite : fs.writeErr path = none)
    (hOnce : ∀ a b, pre ++ placeholderUpper ++ post = a ++ placeholderUpper ++ b → a = pre)
    (_hLower : ¬ placeholderLower <:+: pre ++ placeholderUpper ++ post)
    (hToken : ¬ placeholderLower <:+: pre ++ cookieLine token ++ post) :
    (updateConfig token (fs, out)).1.files path = some (pre ++ cookieLine token ++ post) ∧
      str "Updated token in " ++ path ++ str "\n" ∈ (updateConfig token (fs, out)).2 := by
  have h := updateConfig_files token fs out path _ hPath hFile hRead hWrite
  rw [Replace_once pre placeholderUpper post _ placeholderUpper_ne_nil hOnce,
    Replace_no_instance _ _ _ _ hToken] at h
  exact h

theorem updateConfig_replaces_placeholder_witness :
    (sampleFiles (str "a: 1\ncookie: \"YOUR_CURSOR_TOKEN_HERE\"\nb: 2\n")).files
        (str "./config.yaml") = some (str "a: 1\n" ++ placeholderUpper ++ str "\nb: 2\n") ∧
      (updateConfig (str "user_42%3A%3Aabc")
        (sampleFiles (str "a: 1\ncookie: \"YOUR_CURSOR_TOKEN_HERE\"\nb: 2\n"), [])).1.files
          (str "./config.yaml") = some (str "a: 1\ncookie: \"user_42%3A%3Aabc\"\nb: 2\n") :=
  ⟨by decide,
    (updateConfig_replaces_placeholder (str "user_42%3A%3Aabc") (str "a: 1\n") (str "\nb: 2\n")
      (sampleFiles (str "a: 1\ncookie: \"YOUR_CURSOR_TOKEN_HERE\"\nb: 2\n")) []
      (str "./config.yaml") (by decide) (by decide) rfl rfl
      (only_instance_of_positions _ _ _ _ rfl (by decide)) (by decide) (by decide)).1⟩

/-- C3 as stated fails for a token that brings the second placeholder into
the text: for a file that is just `cookie: "YOUR_CURSOR_TOKEN_HERE"` and the
token `cookie: "your_cursor_session_token_here"`, the second replacement
rewrites the token that the first one put in. -/
theorem updateConfig_token_rewritten :
    ¬ ∀ (token pre post : Str) (fs : FileSys) (out : List Str) (path : Str),
      path ∈ configPaths → fs.files path = some (pre ++ placeholderUpper ++ post) →
      fs.readErr path = none → fs.writeErr path = none →
      (∀ a b, pre ++ placeholderUpper ++ post = a ++ placeholderUpper ++ b → a = pre) →
      ¬ placeholderLower <:+: pre ++ placeholderUpper ++ post →
      (updateConfig token (fs, out)).1.files path = some (pre ++ cookieLine token ++ post) := by
  intro h
  have h1 := h placeholderLower [] [] (sampleFiles placeholderUpper) [] (str "./config.yaml")
    (by decide) (by decide) rfl rfl (only_instance_of_positions _ _ _ _ rfl (by decide))
    (by decide)
  revert h1
  decide

/-- C4: a config file that contains neither placeholder holds, after
`updateConfig` has read and written it, the content it had. -/
theorem updateConfig_no_placeholder (token content : Str) (fs : FileSys) (out : List Str)
    (path : Str) (hPath : path ∈ configPaths) (hFile : fs.files path = some content)
    (hRead : fs.readErr path = none) (hWrite : fs.writeErr path = none)
    (hUpper : ¬ placeholderUpper <:+: content) (hLower : ¬ placeholderLower <:+: content) :
    (updateConfig token (fs, out)).1.files path = some content ∧
      str "Updated token in " ++ path ++ str "\n" ∈ (updateConfig token (fs, out)).2 := by
  have h := updateConfig_files token fs out path _ hPath hFile hRead hWrite
  rw [Replace_no_instance _ _ _ _ hUpper, Replace_no_instance _ _ _ _ hLower] at h
  exact h

theorem updateConfig_no_placeholder_witness :
    ¬ placeholderUpper <:+: str "cookie: \"abc\"\n" ∧
      ¬ placeholderLower <:+: str "cookie: \"abc\"\n" ∧
      (updateConfig (str "user_42%3A%3Aabc") (sampleFiles (str "cookie: \"abc\"\n"), [])).1.files
        (str "./config.yaml") = some (str "cookie: \"abc\"\n") :=
  ⟨by decide, by decide,
    (updateConfig_no_placeholder (str "user_42%3A%3Aabc") (str "cookie: \"abc\"\n")
      (sampleFiles (str "cookie: \"abc\"\n")) [] (str "./config.yaml") (by decide) rfl rfl rfl
      (by decide) (by decide)).1⟩

/-! ## PKCE pair -/

/-- The model of `crypto/sha256` on the test vector `"abc"` of FIPS 180-4. -/
theorem sha256_abc :
    hexBytes (sha256 (str "abc")) =
      str "ba7816bf8f01cfea414140de5dae2223b00361a396177a9cb410ff61f20015ad" := by
  decide

theorem b64_mem (v : Nat) : b64 v ∈ encodeURL := by
  have h : ∀ i < 64, encodeURL.getD i 0 ∈ encodeURL := by decide
  have hv : v &&& 0x3F < 64 := Nat.lt_succ_of_le Nat.and_le_right
  exact h _ hv

theorem base64RawURLEncode_mem (s : Str) : ∀ c ∈ base64RawURLEncode s, c ∈ encodeURL := by
  induction s using base64RawURLEncode.induct with
  | case1 => simp [base64RawURLEncode]
  | case2 s0 => simp [base64RawURLEncode, b64_mem]
  | case3 s0 s1 => simp [base64RawURLEncode, b64_mem]
  | case4 s0 s1 s2 rest ih =>
    intro c hc
    simp only [base64RawURLEncode, List.mem_cons] at hc
    rcases hc with h | h | h | h | h
    · rw [h]; exact b64_mem _
    · rw [h]; exact b64_mem _
    · rw [h]; exact b64_mem _
    · rw [h]; exact b64_mem _
    · exact ih c h

/-- Length of the unpadded encoding, Go `EncodedLen`. -/
theorem base64RawURLEncode_length (s : Str) :
    (base64RawURLEncode s).length = (s.length * 8 + 5) / 6 := by
  induction s using base64RawURLEncode.induct with
  | case1 => simp [base64RawURLEncode]
  | case2 s0 => simp [base64RawURLEncode]
  | case3 s0 s1 => simp [base64RawURLEncode]
  | case4 s0 s1 s2 rest ih =>
    simp only [base64RawURLEncode, List.length_cons, ih]
    omega

/-- C5: whenever the random read succeeds `generatePkcePair` returns a
pair, and the challenge of every pair it returns is the unpadded base64url
encoding of the SHA-256 digest of the verifier text; so two runs with the
same verifier have the same challenge.  The digest is not taken over the
raw random bytes: for 43 zero bytes the two differ. -/
theorem generatePkcePair_challenge :
    (∀ (read : Nat → Option Str) (b : Str), read 43 = some b →
      ∃ verifier challenge, generatePkcePair read = some (verifier, challenge) ∧
        verifier = base64RawURLEncode b) ∧
    (∀ (read : Nat → Option Str) (verifier challenge : Str),
      generatePkcePair read = some (verifier, challenge) →
        challenge = base64RawURLEncode (sha256 verifier)) ∧
    (∀ (read1 read2 : Nat → Option Str) (p1 p2 : Str × Str),
      generatePkcePair read1 = some p1 → generatePkcePair read2 = some p2 →
        p1.1 = p2.1 → p1.2 = p2.2) ∧
    (∃ (b verifier challenge : Str),
      generatePkcePair (fun _ => some b) = some (verifier, challenge) ∧
        challenge ≠ base64RawURLEncode (sha256 b)) := by
  have key : ∀ (read : Nat → Option Str) (verifier challenge : Str),
      generatePkcePair read = some (verifier, challenge) →
        challenge = base64RawURLEncode (sha256 verifier) := by
    intro read verifier challenge h
    unfold generatePkcePair at h
    cases hr : read 43 with
    | none => simp [hr] at h
    | some b =>
      simp only [hr, Option.some.injEq, Prod.mk.injEq] at h
      rw [← h.2, ← h.1]
  refine ⟨?_, key, ?_, ?_⟩
  · intro read b hb
    exact ⟨base64RawURLEncode b, base64RawURLEncode (sha256 (base64RawURLEncode b)),
      by simp only [generatePkcePair, hb], rfl⟩
  · intro read1 read2 p1 p2 h1 h2 hv
    obtain ⟨v1, c1⟩ := p1
    obtain ⟨v2, c2⟩ := p2
    simp only at hv
    simp only [key read1 v1 c1 h1, key read2 v2 c2 h2, hv]
  · refine ⟨List.replicate 43 0, base64RawURLEncode (List.replicate 43 0),
      base64RawURLEncode (sha256 (base64RawURLEncode (List.replicate 43 0))), rfl, ?_⟩
    decide

theorem generatePkcePair_challenge_witness :
    ∃ verifier challenge,
      generatePkcePair (fun n => some (List.replicate n 0)) = some (verifier, challenge) ∧
        challenge = base64RawURLEncode (sha256 verifier) :=
  ⟨_, _, rfl, generatePkcePair_challenge.2.1 (fun n => some (List.replicate n 0)) _ _ rfl⟩

/-- C7 (amended): whenever the random read of 43 bytes succeeds, the
verifier `generatePkcePair` returns is the unpadded base64url encoding of
those bytes, every character of it is in the URL alphabet (which has no
`=`), and it is exactly 58 characters long. -/
theorem generatePkcePair_verifier (read : Nat → Option Str) (b : Str)
    (hRead : read 43 = some b) (hLen : b.length = 43) :
    ∃ verifier challenge, generatePkcePair read = some (verifier, challenge) ∧
      verifier = base64RawURLEncode b ∧ verifier.length = 58 ∧
      (∀ c ∈ verifier, c ∈ encodeURL) ∧ '='.toNat ∉ encodeURL := by
  refine ⟨base64RawURLEncode b, base64RawURLEncode (sha256 (base64RawURLEncode b)),
    by simp only [generatePkcePair, hRead], rfl, ?_, base64RawURLEncode_mem b, by decide⟩
  rw [base64RawURLEncode_length, hLen]

theorem generatePkcePair_verifier_witness :
    ∃ verifier challenge,
      generatePkcePair (fun n => some (List.replicate n 0)) = some (verifier, challenge) ∧
      verifier = base64RawURLEncode (List.replicate 43 0) ∧ verifier.length = 58 ∧
      (∀ c ∈ verifier, c ∈ encodeURL) ∧ '='.toNat ∉ encodeURL :=
  generatePkcePair_verifier (fun n => some (List.replicate n 0)) (List.replicate 43 0) rfl
    (by decide)

/-- C7 as stated fails: the verifier encodes 43 bytes, which takes 58
characters, not 43.  For 43 zero bytes it is 58 times `A`. -/
theorem generatePkcePair_verifier_not_43 :
    ¬ ∀ (read : Nat → Option Str) (b : Str), read 43 = some b → b.length = 43 →
      ∃ verifier challenge, generatePkcePair read = some (verifier, challenge) ∧
        verifier.length = 43 := by
  intro h
  obtain ⟨v, c, hg, hl⟩ := h (fun n => some (List.replicate n 0)) (List.replicate 43 0) rfl
    (by decide)
  simp only [generatePkcePair, Option.some.injEq, Prod.mk.injEq] at hg
  rw [← hg.1, base64RawURLEncode_length] at hl
  simp at hl

/-! ## Session identifier -/

theorem hexDigit_mem (v : Nat) (hv : v < 16) : hexDigit v ∈ str "0123456789abcdef" := by
  revert v
  decide

theorem hexBytes_length (s : Str) : (hexBytes s).length = 2 * s.length := by
  induction s with
  | nil => rfl
  | cons x s ih => simp only [hexBytes, List.length_cons, ih]; omega

theorem hexBytes_mem (s : Str) (hs : ∀ x ∈ s, x < 256) :
    ∀ c ∈ hexBytes s, c ∈ str "0123456789abcdef" := by
  induction s with
  | nil => simp [hexBytes]
  | cons x s ih =>
    have hx : x < 256 := hs x (by simp)
    have h1 : x >>> 4 < 16 := by rw [Nat.shiftRight_eq_div_pow]; omega
    have h2 : x &&& 0x0F < 16 := Nat.lt_succ_of_le Nat.and_le_right
    intro c hc
    simp only [hexBytes, List.mem_cons] at hc
    rcases hc with h | h | h
    · rw [h]; exact hexDigit_mem _ h1
    · rw [h]; exact hexDigit_mem _ h2
    · exact ih (fun y hy => hs y (by simp [hy])) c h

theorem version_nibble (x : Nat) (hx : x < 256) :
    hexDigit (((x &&& 0x0F) ||| 0x40) >>> 4) = '4'.toNat ∧ (x &&& 0x0F) ||| 0x40 < 256 := by
  revert x
  decide

theorem variant_nibble (x : Nat) (hx : x < 256) :
    hexDigit (((x &&& 0x3F) ||| 0x80) >>> 4) ∈ str "89ab" ∧ (x &&& 0x3F) ||| 0x80 < 256 := by
  revert x
  decide

/-- C6: for 16 random bytes, `generateUUID` returns five groups of 8, 4,
4, 4 and 12 lower-case hexadecimal digits separated by hyphens; the third
group starts with `4` and the fourth with one of `8`, `9`, `a`, `b`. -/
theorem generateUUID_format (read : Nat → Option Str) (b : Str) (hRead : read 16 = some b)
    (hLen : b.length = 16) (hByte : ∀ x ∈ b, x < 256) :
    ∃ g1 g2 g3 g4 g5 : Str,
      generateUUID read =
        some (g1 ++ str "-" ++ g2 ++ str "-" ++ g3 ++ str "-" ++ g4 ++ str "-" ++ g5) ∧
      g1.length = 8 ∧ g2.length = 4 ∧ g3.length = 4 ∧ g4.length = 4 ∧ g5.length = 12 ∧
      (∀ c ∈ g1 ++ g2 ++ g3 ++ g4 ++ g5, c ∈ str "0123456789abcdef") ∧
      g3.head? = some '4'.toNat ∧ ∃ v ∈ str "89ab", g4.head? = some v := by
  match b, hLen with
  | [b0, b1, b2, b3, b4, b5, b6, b7, b8, b9, b10, b11, b12, b13, b14, b15], _ =>
    have h6 := version_nibble b6 (hByte b6 (by simp))
    have h8 := variant_nibble b8 (hByte b8 (by simp))
    refine ⟨hexBytes [b0, b1, b2, b3], hexBytes [b4, b5],
      hexBytes [(b6 &&& 0x0F) ||| 0x40, b7], hexBytes [(b8 &&& 0x3F) ||| 0x80, b9],
      hexBytes [b10, b11, b12, b13, b14, b15], ?_, ?_, ?_, ?_, ?_, ?_, ?_, ?_, ?_⟩
    · simp [generateUUID, hRead, slice]
    · simp [hexBytes_length]
    · simp [hexBytes_length]
    · simp [hexBytes_length]
    · simp [hexBytes_length]
    · simp [hexBytes_length]
    · intro c hc
      simp only [List.mem_append] at hc
      have hb : ∀ y ∈ [b0, b1, b2, b3, b4, b5, b6, b7, b8, b9, b10, b11, b12, b13, b14, b15],
          y < 256 := hByte
      simp only [List.mem_cons, List.mem_singleton, List.not_mem_nil, or_false,
        forall_eq_or_imp, forall_eq] at hb
      obtain ⟨k0, k1, k2, k3, k4, k5, k6, k7, k8, k9, k10, k11, k12, k13, k14, k15⟩ := hb
      rcases hc with (((hc | hc) | hc) | hc) | hc
      · exact hexBytes_mem _ (by simp [*]) c hc
      · exact hexBytes_mem _ (by simp [*]) c hc
      · exact hexBytes_mem _ (by simp [h6.2, *]) c hc
      · exact hexBytes_mem _ (by simp [h8.2, *]) c hc
      · exact hexBytes_mem _ (by simp [*]) c hc
    · simp only [hexBytes, List.head?_cons, h6.1]
    · exact ⟨_, h8.1, by simp only [hexBytes, List.head?_cons]⟩

theorem generateUUID_format_witness :
    ∃ g1 g2 g3 g4 g5 : Str,
      generateUUID (fun n => some (List.replicate n 255)) =
        some (g1 ++ str "-" ++ g2 ++ str "-" ++ g3 ++ str "-" ++ g4 ++ str "-" ++ g5) ∧
      g1.length = 8 ∧ g2.length = 4 ∧ g3.length = 4 ∧ g4.length = 4 ∧ g5.length = 12 ∧
      (∀ c ∈ g1 ++ g2 ++ g3 ++ g4 ++ g5, c ∈ str "0123456789abcdef") ∧
      g3.head? = some '4'.toNat ∧ ∃ v ∈ str "89ab", g4.head? = some v :=
  generateUUID_format (fun n => some (List.replicate n 255)) (List.replicate 16 255) rfl
    (by decide) (by decide)

/-! ## Results of `Login` -/

theorem Login_some_reads (w : World) (run : LoginRun) (h : Login w = some run) :
    ∃ verifier challenge uuid, generatePkcePair w.randPkce = some (verifier, challenge) ∧
      generateUUID w.randUUID = some uuid := by
  cases hP : generatePkcePair w.randPkce with
  | none => simp [Login, hP] at h
  | some p =>
    obtain ⟨verifier, challenge⟩ := p
    cases hU : generateUUID w.randUUID with
    | none => simp [Login, hP, hU] at h
    | some uuid => exact ⟨verifier, challenge, uuid, rfl, rfl⟩

/-- C2: with an empty access token `formatToken` returns the empty string
whatever the auth identifier, and `Login`, given that response from the
poll, returns the error "no access token received" and the empty token. -/
theorem empty_access_token (authId : Str) :
    formatToken ⟨[], authId⟩ = some [] ∧
    ∀ (w : World) (verifier challenge uuid : Str),
      generatePkcePair w.randPkce = some (verifier, challenge) →
      generateUUID w.randUUID = some uuid →
      queryAuthPoll w uuid verifier = .ok ⟨[], authId⟩ →
      ∃ run, Login w = some run ∧ run.token = [] ∧
        run.err = some (str "login failed: no access token received") := by
  refine ⟨by simp [formatToken], ?_⟩
  intro w verifier challenge uuid hP hU hPoll
  obtain ⟨run, _, hrun, _, hres⟩ := Login_run w verifier challenge uuid hP hU
  rw [hPoll] at hres
  simp only [if_true] at hres
  exact ⟨run, hrun, hres.2, hres.1⟩

theorem empty_access_token_witness :
    formatToken ⟨str "", str "x|y"⟩ = some (str "") ∧
    ∃ run, Login (sampleWorld ⟨str "", str "x|y"⟩) = some run ∧ run.token = str "" ∧
      run.err = some (str "login failed: no access token received") :=
  ⟨(empty_access_token (str "x|y")).1,
    (empty_access_token (str "x|y")).2 (sampleWorld ⟨str "", str "x|y"⟩) _ _ _ rfl rfl rfl⟩

theorem openBrowser_none_iff (w : World) (url : Str) :
    (w.goos = str "windows" → (openBrowser w url = none ↔
      w.cmdStart (str "rundll32") [str "url.dll,FileProtocolHandler", url] = none)) ∧
    (w.goos = str "darwin" → (openBrowser w url = none ↔ w.cmdStart (str "open") [url] = none)) ∧
    (w.goos = str "linux" → (openBrowser w url = none ↔
      w.cmdStart (str "xdg-open") [url] = none)) := by
  have h1 : str "darwin" ≠ str "windows" := by decide
  have h2 : str "linux" ≠ str "windows" := by decide
  have h3 : str "linux" ≠ str "darwin" := by decide
  refine ⟨?_, ?_, ?_⟩
  · intro h; simp [openBrowser, h]
  · intro h; simp [openBrowser, h, h1]
  · intro h; simp [openBrowser, h, h2, h3]

/-- C9: `getLoginUrl(u, c)` puts the challenge in the `challenge`
parameter and the identifier in the `uuid` parameter.  A run of `Login`
whose random reads succeed prints that link for the challenge and
identifier it generated, hands the same link to the command that opens the
browser (the warning is printed exactly when starting that command on the
link fails), and polls the URL that carries the same identifier and the
verifier: its result is the outcome of the HTTP request to that URL. -/
theorem getLoginUrl_format :
    (∀ uuid challenge : Str, getLoginUrl uuid challenge =
      str "https://www.cursor.com/loginDeepControl?challenge=" ++ challenge ++ str "&uuid=" ++
        uuid ++ str "&mode=login") ∧
    ∀ (w : World) (verifier challenge uuid : Str),
      generatePkcePair w.randPkce = some (verifier, challenge) →
      generateUUID w.randUUID = some uuid →
      ∃ run warn rest, Login w = some run ∧
        run.stdout =
          [str "=== Cursor Login ===\n",
            str "Please open the following URL in your browser to login:\n",
            str "https://www.cursor.com/loginDeepControl?challenge=" ++ challenge ++
              str "&uuid=" ++ uuid ++ str "&mode=login" ++ str "\n"] ++ warn ++
          [str "\nWaiting for login... Press Enter after you've logged in to save cookies.\n",
            str "Press Enter to continue...\n", str "Checking login status...\n"] ++ rest ∧
        (warn = [] ∨ warn = [str "Could not open browser automatically. Please copy and paste the URL into your browser.\n"]) ∧
        (w.goos = str "windows" → (warn = [] ↔
          w.cmdStart (str "rundll32")
            [str "url.dll,FileProtocolHandler", getLoginUrl uuid challenge] = none)) ∧
        (w.goos = str "darwin" → (warn = [] ↔
          w.cmdStart (str "open") [getLoginUrl uuid challenge] = none)) ∧
        (w.goos = str "linux" → (warn = [] ↔
          w.cmdStart (str "xdg-open") [getLoginUrl uuid challenge] = none)) ∧
        (∀ err, w.httpDo (str "https://api2.cursor.sh/auth/poll?uuid=" ++ uuid ++
            str "&verifier=" ++ verifier) = .error err →
          run.err = some (str "login failed: " ++ err) ∧ run.token = []) ∧
        (∀ body authResp, w.httpDo (str "https://api2.cursor.sh/auth/poll?uuid=" ++ uuid ++
            str "&verifier=" ++ verifier) = .ok ⟨200, .ok body⟩ →
          w.jsonUnmarshal body = .ok authResp → authResp.AccessToken ≠ [] →
          run.err = none ∧ formatToken authResp = some run.token) := by
  refine ⟨fun _ _ => rfl, ?_⟩
  intro w verifier challenge uuid hP hU
  obtain ⟨run, rest, hrun, hout, hres⟩ := Login_run w verifier challenge uuid hP hU
  obtain ⟨hw, hd, hl⟩ := openBrowser_none_iff w (getLoginUrl uuid challenge)
  refine ⟨run, _, rest, hrun, hout, ?_, ?_, ?_, ?_, ?_, ?_⟩
  · cases openBrowser w (getLoginUrl uuid challenge) <;> simp
  · intro h
    rw [← hw h]
    cases openBrowser w (getLoginUrl uuid challenge) <;> simp
  · intro h
    rw [← hd h]
    cases openBrowser w (getLoginUrl uuid challenge) <;> simp
  · intro h
    rw [← hl h]
    cases openBrowser w (getLoginUrl uuid challenge) <;> simp
  · intro err herr
    have hq : queryAuthPoll w uuid verifier = .error err := by
      simp only [queryAuthPoll, herr]
    rw [hq] at hres
    exact hres
  · intro body authResp hhttp hjson hTok
    have hq : queryAuthPoll w uuid verifier = .ok authResp := by
      simp only [queryAuthPoll, hhttp]
      simp [hjson]
    rw [hq] at hres
    simp only [hTok, if_false] at hres
    exact ⟨hres.1, hres.2.1⟩

theorem getLoginUrl_format_witness :
    getLoginUrl (str "u-1") (str "ch") =
      str "https://www.cursor.com/loginDeepControl?challenge=ch&uuid=u-1&mode=login" ∧
    ∃ run, Login (sampleWorld ⟨str "abc", str "org_1|user_42"⟩) = some run ∧
      run.stdout.take 4 =
        [str "=== Cursor Login ===\n",
          str "Please open the following URL in your browser to login:\n",
          str "https://www.cursor.com/loginDeepControl?challenge=" ++
            base64RawURLEncode (sha256 (base64RawURLEncode (List.replicate 43 0))) ++
            str "&uuid=ffffffff-ffff-4fff-bfff-ffffffffffff&mode=login\n",
          str "\nWaiting for login... Press Enter after you've logged in to save cookies.\n"] ∧
      run.err = none ∧ run.token = str "user_42%3A%3Aabc" :=
  ⟨getLoginUrl_format.1 (str "u-1") (str "ch"),
    match getLoginUrl_format.2 (sampleWorld ⟨str "abc", str "org_1|user_42"⟩)
      (base64RawURLEncode (List.replicate 43 0))
      (base64RawURLEncode (sha256 (base64RawURLEncode (List.replicate 43 0))))
      (str "ffffffff-ffff-4fff-bfff-ffffffffffff") rfl (by decide) with
    | ⟨run, warn, rest, hrun, hout, _, _, _, hl, _, hok⟩ =>
      have hw : warn = [] := (hl rfl).2 rfl
      have hr := hok (str "ok") ⟨str "abc", str "org_1|user_42"⟩ rfl rfl (by decide)
      have ht : formatToken ⟨str "abc", str "org_1|user_42"⟩ = some (str "user_42%3A%3Aabc") := by
        decide
      ⟨run, hrun, by rw [hout, hw]; rfl, hr.1, Option.some.inj (hr.2.symm.trans ht)⟩⟩

/-- C10: for a non-empty access token `formatToken` returns (it does not
index out of range) a non-empty string; so once the poll has answered with
a non-empty access token `Login` succeeds with the formatted token and the
"could not format token" branch is not taken, and every token `Login`
returns without an error is non-empty. -/
theorem formatToken_nonempty :
    (∀ authResp : AuthResponse, authResp.AccessToken ≠ [] →
      ∃ token, formatToken authResp = some token ∧ token ≠ []) ∧
    (∀ (w : World) (verifier challenge uuid : Str) (authResp : AuthResponse),
      generatePkcePair w.randPkce = some (verifier, challenge) →
      generateUUID w.randUUID = some uuid →
      queryAuthPoll w uuid verifier = .ok authResp → authResp.AccessToken ≠ [] →
      ∃ run, Login w = some run ∧ run.err = none ∧ formatToken authResp = some run.token) ∧
    (∀ (w : World) (run : LoginRun), Login w = some run → run.err = none → run.token ≠ []) := by
  refine ⟨formatToken_some_ne_nil, ?_, ?_⟩
  · intro w verifier challenge uuid authResp hP hU hPoll hTok
    obtain ⟨run, _, hrun, _, hres⟩ := Login_run w verifier challenge uuid hP hU
    rw [hPoll] at hres
    simp only [hTok, if_false] at hres
    exact ⟨run, hrun, hres.1, hres.2.1⟩
  · intro w run hrun herr
    obtain ⟨verifier, challenge, uuid, hP, hU⟩ := Login_some_reads w run hrun
    obtain ⟨run', _, hrun', _, hres⟩ := Login_run w verifier challenge uuid hP hU
    have hEq : run' = run := by
      rw [hrun] at hrun'
      exact (Option.some.inj hrun').symm
    subst hEq
    cases hq : queryAuthPoll w uuid verifier with
    | error e =>
      rw [hq] at hres
      simp only at hres
      rw [herr] at hres
      exact absurd hres.1 (by simp)
    | ok authResp =>
      rw [hq] at hres
      by_cases hTok : authResp.AccessToken = []
      · simp only [hTok, if_true] at hres
        rw [herr] at hres
        exact absurd hres.1 (by simp)
      · simp only [hTok, if_false] at hres
        exact hres.2.2

theorem formatToken_nonempty_witness :
    (∃ token, formatToken ⟨str "abc", str "org_1|user_42"⟩ = some token ∧ token ≠ []) ∧
    ∃ run, Login (sampleWorld ⟨str "abc", str "org_1|user_42"⟩) = some run ∧ run.err = none ∧
      formatToken ⟨str "abc", str "org_1|user_42"⟩ = some run.token :=
  ⟨formatToken_nonempty.1 ⟨str "abc", str "org_1|user_42"⟩ (by decide),
    formatToken_nonempty.2.1 (sampleWorld ⟨str "abc", str "org_1|user_42"⟩) _ _ _
      ⟨str "abc", str "org_1|user_42"⟩ rfl rfl rfl (by decide)⟩

end Cursor
